import Mathlib

/-!
Verification of the synchrotron proxy's distributor, listener routing
configuration, and per-client pipeline, as a shallow embedding of the
Rust sources (src/backend/distributor/{mod,modulo}.rs, src/listener.rs).

Machine integers are modelled as `Nat` with explicit reduction modulo
`2 ^ 64` where the source casts a `u64` to `usize` (the target is a
64-bit platform, so the cast is the identity on values below `2 ^ 64`;
we keep the reduction explicit).  A Rust panic is modelled as a
distinguished `panicked` outcome carrying the panic message; fallible
construction (`Result<_, CreationError>`) is modelled with `Except`.
-/

namespace Synchrotron

/-! ## Distributor (src/backend/distributor/mod.rs, modulo.rs)

`mod.rs` declares `BackendDescriptor` as an empty placeholder struct,
but `modulo.rs` reads an `idx` field from it (`self.backends[idx].idx`),
the stable index of the backend within its pool.  We model the
descriptor with that `idx` field, since `ModuloDistributor::choose`
requires it. -/

structure BackendDescriptor where
  idx : Nat
deriving DecidableEq

/-- State of `ModuloDistributor` (modulo.rs lines 23-26): a backend
count and the seeded descriptor vector. -/
structure ModuloDistributor where
  backend_count : Nat
  backends : List BackendDescriptor
deriving DecidableEq

/-- `ModuloDistributor::new` (modulo.rs lines 29-34). -/
def ModuloDistributor.new : ModuloDistributor :=
  { backend_count := 0, backends := [] }

/-- `ModuloDistributor`'s seeding method (modulo.rs lines 38-41, the
impl of the `Distributor` trait's seeding operation): stores the given
vector and sets `backend_count` to its length.  The previous state is
discarded entirely. -/
def ModuloDistributor.update (_d : ModuloDistributor) (v : List BackendDescriptor) :
    ModuloDistributor :=
  { backend_count := v.length, backends := v }

/-- The `u64 as usize` cast of the source, on a 64-bit target. -/
def usizeOfU64 (p : Nat) : Nat := p % 2 ^ 64

/-- Outcome of a call that may panic: either a normal value (a slot
index, for `choose`) or a Rust panic with its message. -/
inductive ChooseResult
  | panicked (msg : String)
  | index (i : Nat)
deriving DecidableEq

/-- `ModuloDistributor::choose` (modulo.rs lines 43-46):
`let idx = point as usize % self.backend_count; self.backends[idx].idx`.
When `backend_count = 0` the remainder operation panics (remainder by
zero); when the computed position is out of bounds the indexing panics.
Both panics are represented by `ChooseResult.panicked`. -/
def ModuloDistributor.choose (d : ModuloDistributor) (point : Nat) : ChooseResult :=
  if d.backend_count = 0 then
    .panicked "attempt to calculate the remainder with a divisor of zero"
  else
    match d.backends[usizeOfU64 point % d.backend_count]? with
    | some b => .index b.idx
    | none => .panicked "index out of bounds"

/-- The two distributor variants exported by src/backend/distributor/mod.rs. -/
inductive DistributorKind
  | random
  | modulo
deriving DecidableEq

/-- `configure_distributor` (mod.rs lines 46-52): `"random"` and
`"modulo"` build the corresponding distributor; any other string hits
`panic!("unknown distributor type {}", s)`, modelled as `Except.error`
carrying the panic message. -/
def configure_distributor (dist_type : String) : Except String DistributorKind :=
  if dist_type = "random" then .ok .random
  else if dist_type = "modulo" then .ok .modulo
  else .error ("unknown distributor type " ++ dist_type)

/-! ## Listener routing configuration (src/listener.rs)

`routing_from_config` (listener.rs lines 80-120) builds the backend
pools, reads `routing["type"]` (inserting `"fixed"` when the key is
absent), lowercases it, and dispatches: `"fixed"` goes to
`get_fixed_router`, anything else is
`CreationError::InvalidResource("unknown route type '{x}'")`.
We abstract the already-built pools map as an association list from
pool name to an opaque pool value of type `π` (pool construction,
`BackendPool::new`, is outside the routing logic under scrutiny); the
`routing` table is an association list of strings, mirroring the
`HashMap<String, String>` of the config. -/

inductive CreationError
  | InvalidResource (s : String)
deriving DecidableEq

/-- Association-list lookup, modelling `HashMap::get` on maps built
from the (unique-keyed) configuration tables. -/
def lookupA (k : String) : List (String × α) → Option α
  | [] => none
  | (k2, v) :: rest => if k2 = k then some v else lookupA k rest

/-- ASCII lowercasing of one character, as `str::to_lowercase` acts on
the ASCII range (the configuration's route-type values; Rust's method
is Unicode-aware but coincides with this on ASCII). -/
def asciiLower (c : Char) : Char :=
  if 65 ≤ c.toNat ∧ c.toNat ≤ 90 then Char.ofNat (c.toNat + 32) else c

/-- `str::to_lowercase` on the configuration strings. -/
def lowercase (s : String) : String :=
  ⟨s.data.map asciiLower⟩

/-- `FixedRouter` (constructed in listener.rs line 136; the `routing`
module itself is not part of the sources under scrutiny): holds the
pool all batches are forwarded to. -/
structure FixedRouter (π : Type) where
  pool : π
deriving DecidableEq

/-- Modelled from the spec: `FixedRouter`'s `route` (the `routing`
module's source is absent; spec §4.6: "Fixed: forward the batch to the
`default` pool; return its result unchanged").  `submit` is the pool's
batch-submission semantics. -/
def FixedRouter.route (r : FixedRouter π) (submit : π → List γ → List γ)
    (batch : List γ) : List γ :=
  submit r.pool batch

/-- `get_fixed_router` (listener.rs lines 122-139): requires a pool
named `"default"`; failing that, creation fails with
`InvalidResource("no default pool configured for fixed router")`.
On success it builds a `FixedRouter` over the default pool. -/
def get_fixed_router (pools : List (String × π)) :
    Except CreationError (FixedRouter π) :=
  match lookupA "default" pools with
  | none => .error (.InvalidResource "no default pool configured for fixed router")
  | some p => .ok { pool := p }

/-- The route-type dispatch of `routing_from_config` (listener.rs lines
110-119).  The source's error text puts single quotes around the
unknown type name; the quotes are omitted here (the message is
otherwise verbatim). -/
def routing_from_config (pools : List (String × π))
    (routing : List (String × String)) :
    Except CreationError (FixedRouter π) :=
  let route_type := lowercase ((lookupA "type" routing).getD "fixed")
  if route_type = "fixed" then get_fixed_router pools
  else .error (.InvalidResource ("unknown route type " ++ route_type))

/-! ## Per-client message queue and pipeline (src/listener.rs lines 168-195)

The client task enqueues each batch into a `MessageQueue` (reserving
one ordered slot per request), routes the batch, and the queue writes
the contiguous ready-prefix of filled slots to the client socket.
`backend/message_queue.rs` is not among the sources under scrutiny, so
the queue is modelled from the spec. -/

/-- Modelled from the spec: the state of one client's `MessageQueue`
(spec §3: "an ordered queue of promised replies for one client; each
slot holds Pending → Ready(Message)", "drained strictly in insertion
order onto the client socket"; §4.7: "fill the reserved slots and flush
contiguous ready-prefix to the write half").  `slot i` is the promised
reply for the client's `i`-th request (`none` = Pending), `flushed`
counts the slots already drained to the socket, and `written` is the
byte-order sequence of replies put on the wire so far. -/
structure MQState (Msg : Type) where
  flushed : Nat
  written : List Msg
  slot : Nat → Option Msg

/-- One observable event on a client's message queue: the router
completing request `i` with reply `m` (filling slot `i`), or the queue
draining one ready slot at the head of the pending region to the
socket.  Routers may fill slots in any order; drains may interleave
arbitrarily. -/
inductive MQStep (Msg : Type)
  | fill (i : Nat) (m : Msg)
  | flush
deriving DecidableEq

/-- Modelled from the spec: effect of one queue event.  A `fill` marks
a slot Ready; a `flush` writes the first still-queued slot to the
socket if it is Ready, else does nothing (the ready-prefix flush is the
iteration of this single-slot drain). -/
def mqStep (s : MQState Msg) : MQStep Msg → MQState Msg
  | .fill i m => { s with slot := Function.update s.slot i (some m) }
  | .flush =>
    match s.slot s.flushed with
    | some m => { flushed := s.flushed + 1, written := s.written ++ [m], slot := s.slot }
    | none => s

/-- Run a sequence of queue events. -/
def mqRun (steps : List (MQStep Msg)) (s : MQState Msg) : MQState Msg :=
  steps.foldl mqStep s

/-- Drain up to `k` slots (the terminal ready-prefix flush). -/
def drainN (k : Nat) (s : MQState Msg) : MQState Msg :=
  match k with
  | 0 => s
  | k + 1 => drainN k (mqStep s .flush)

/-- A fresh queue: nothing flushed, nothing written, all slots Pending. -/
def mqInit (Msg : Type) : MQState Msg :=
  { flushed := 0, written := [], slot := fun _ => none }

/-- An event is well-formed for a client that sent `n` requests whose
routed replies are `reply 0, …, reply (n-1)`: a fill targets an
existing slot `i < n` and carries request `i`'s routed reply. -/
def stepOk (n : Nat) (reply : Nat → Msg) : MQStep Msg → Prop
  | .fill i m => i < n ∧ m = reply i
  | .flush => True

/-- Queue invariant tying the state to the routed replies: the flush
pointer never passes the batch, the wire holds exactly the replies of
requests `0, …, flushed-1` in request order, every Ready slot `i < n`
holds request `i`'s reply, and every drained slot is Ready. -/
def MQInv (n : Nat) (reply : Nat → Msg) (s : MQState Msg) : Prop :=
  s.flushed ≤ n ∧
  s.written = (List.range s.flushed).map reply ∧
  (∀ j, s.slot j = none ∨ (j < n ∧ s.slot j = some (reply j))) ∧
  (∀ j, j < s.flushed → s.slot j = some (reply j))

/-! ## The client batch loop (src/listener.rs lines 175-195)

`proto_rx.batch(128).fold(...)` drives the per-client pipeline:
`Stream::fold` polls the batch stream for item `k`, then drives the
future returned by the closure (`mqcp.enqueue(req).and_then(route)`)
to completion before polling the stream for item `k+1`.  `foldTrace`
is that execution order as an event trace. -/

/-- One observable event of the client loop: batch `k` is read off the
protocol stream, or the router future for batch `k` resolves. -/
inductive ClientEvent
  | readBatch (k : Nat)
  | routeResolved (k : Nat)
deriving DecidableEq

/-- Event trace of the client fold for `m` remaining batches, the next
one carrying index `k`: `Stream::fold` reads a batch, then awaits the
enqueue-and-route future for it, then moves to the next batch. -/
def foldTrace (m k : Nat) : List ClientEvent :=
  match m with
  | 0 => []
  | m + 1 => .readBatch k :: .routeResolved k :: foldTrace m (k + 1)

/-! ## Theorems -/

/-- C3: for the modulo distributor, for every seeded descriptor vector
holding a descriptor `b` at zero-based list position `p mod n` (so in
particular `n ≥ 1`) and every 64-bit point `p`, `choose p` returns that
descriptor's index. -/
theorem modulo_choose_is_mod_position (d : ModuloDistributor)
    (v : List BackendDescriptor) (p : Nat) (b : BackendDescriptor)
    (hp : p < 2 ^ 64) (hb : v[p % v.length]? = some b) :
    (d.update v).choose p = .index b.idx := by
  have hv : v.length ≠ 0 := by
    intro h0
    rw [List.length_eq_zero] at h0
    subst h0
    simp at hb
  unfold ModuloDistributor.choose ModuloDistributor.update
  simp only [usizeOfU64, Nat.mod_eq_of_lt hp]
  simp [hv, hb]

theorem modulo_choose_is_mod_position_witness :
    (5 : Nat) < 2 ^ 64 ∧
    ([⟨3⟩, ⟨8⟩] : List BackendDescriptor)[5 % 2]? = some ⟨8⟩ ∧
    (ModuloDistributor.new.update [⟨3⟩, ⟨8⟩]).choose 5 = .index 8 :=
  ⟨by decide, rfl,
   modulo_choose_is_mod_position ModuloDistributor.new [⟨3⟩, ⟨8⟩] 5 ⟨8⟩
     (by decide) rfl⟩

/-- C4 counterexample: on an empty seeded vector, `choose 7` panics
with a remainder-by-zero; it does not produce a `NoBackends` error
value (the `choose` signature, returning a bare slot index, has no
error channel at all) and does not return an index. -/
theorem modulo_choose_empty_cex :
    (ModuloDistributor.new.update []).choose 7
      = .panicked "attempt to calculate the remainder with a divisor of zero" :=
  rfl

/-- C4 (amended): when the seeded descriptor vector is empty, `choose`
panics with a remainder-by-zero for every point `p`; it never returns
a slot index and never produces an error value. -/
theorem modulo_choose_empty_panics (d : ModuloDistributor) (p : Nat) :
    (d.update []).choose p
      = .panicked "attempt to calculate the remainder with a divisor of zero" :=
  rfl

/-- C6: `configure_distributor` returns the random distributor for
`"random"`, the modulo distributor for `"modulo"`, and for every other
string fails fatally (a `panic!`, modelled as `Except.error`) with the
message `unknown distributor type {s}`, never returning a
distributor. -/
theorem configure_distributor_spec :
    configure_distributor "random" = .ok .random ∧
    configure_distributor "modulo" = .ok .modulo ∧
    ∀ s : String, s ≠ "random" → s ≠ "modulo" →
      configure_distributor s = .error ("unknown distributor type " ++ s) := by
  refine ⟨rfl, rfl, fun s h1 h2 => ?_⟩
  simp [configure_distributor, h1, h2]

theorem configure_distributor_spec_witness :
    configure_distributor "md5" = .error ("unknown distributor type " ++ "md5") :=
  configure_distributor_spec.2.2 "md5" (by decide) (by decide)

/-- C7: seeding the modulo distributor with `v` completely replaces the
previous state: the stored descriptors equal `v`, the stored count is
`v.length`, and `choose` cannot distinguish two distributors seeded
with the same `v`, whatever their prior states were. -/
theorem modulo_update_replaces (d e : ModuloDistributor)
    (v : List BackendDescriptor) :
    (d.update v).backends = v ∧
    (d.update v).backend_count = v.length ∧
    ∀ p, (d.update v).choose p = (e.update v).choose p :=
  ⟨rfl, rfl, fun _ => rfl⟩

/-- C8: `choose` is deterministic — it depends only on the point and
the seeded state (descriptor vector and backend count): two
distributors agreeing on that state agree on every `choose` result. -/
theorem modulo_choose_deterministic (d₁ d₂ : ModuloDistributor) (p : Nat)
    (hb : d₁.backends = d₂.backends)
    (hc : d₁.backend_count = d₂.backend_count) :
    d₁.choose p = d₂.choose p := by
  simp only [ModuloDistributor.choose, hb, hc]

theorem modulo_choose_deterministic_witness :
    ModuloDistributor.choose ⟨1, [⟨4⟩]⟩ 9 = ModuloDistributor.choose ⟨1, [⟨4⟩]⟩ 9 :=
  modulo_choose_deterministic ⟨1, [⟨4⟩]⟩ ⟨1, [⟨4⟩]⟩ 9 rfl rfl

/-- C2: the route-type dispatch rejects `"shadow"` and `"warmup"` as
unknown route types even when every pool they need is configured; only
`"fixed"` is dispatched.  This contradicts the repository's own test
harness (synchrotron-test/src/daemons.rs), which configures a listener
with routing type `"shadow"` and waits for it to come up. -/
theorem routing_shadow_warmup_rejected :
    routing_from_config [("default", (0 : Nat)), ("shadow", 1)] [("type", "shadow")]
      = Except.error (CreationError.InvalidResource ("unknown route type shadow")) ∧
    routing_from_config [("default", (0 : Nat)), ("warm", 1), ("cold", 2)]
        [("type", "warmup")]
      = Except.error (CreationError.InvalidResource ("unknown route type warmup")) :=
  ⟨rfl, rfl⟩

/-- C5: with routing type `"fixed"`, construction fails (with the
`no default pool configured for fixed router` creation error) exactly
when the pools map has no `"default"` entry; when a default pool
exists, construction succeeds with a fixed router over that pool, and
the router forwards every batch to it, returning its result
unchanged. -/
theorem fixed_router_spec (γ : Type) (pools : List (String × π)) :
    (lookupA "default" pools = none →
      routing_from_config pools [("type", "fixed")]
        = .error (.InvalidResource "no default pool configured for fixed router")) ∧
    ∀ p, lookupA "default" pools = some p →
      routing_from_config pools [("type", "fixed")] = .ok { pool := p } ∧
      ∀ (submit : π → List γ → List γ) (batch : List γ),
        FixedRouter.route { pool := p } submit batch = submit p batch := by
  have hfix : routing_from_config pools [("type", "fixed")] = get_fixed_router pools := rfl
  constructor
  · intro h
    rw [hfix]
    unfold get_fixed_router
    rw [h]
  · intro p h
    refine ⟨?_, fun submit batch => rfl⟩
    rw [hfix]
    unfold get_fixed_router
    rw [h]

theorem fixed_router_spec_witness :
    routing_from_config ([] : List (String × Nat)) [("type", "fixed")]
      = Except.error (CreationError.InvalidResource "no default pool configured for fixed router") ∧
    routing_from_config [("default", (5 : Nat))] [("type", "fixed")]
      = Except.ok { pool := 5 } ∧
    FixedRouter.route { pool := (5 : Nat) } (fun _ b => b) [1, 2] = [1, 2] :=
  ⟨(fixed_router_spec Nat []).1 rfl,
   ((fixed_router_spec Nat [("default", 5)]).2 5 rfl).1,
   ((fixed_router_spec Nat [("default", 5)]).2 5 rfl).2 (fun _ b => b) [1, 2]⟩

/-- C10: when the routing map has no `"type"` entry, listener
construction behaves exactly as if `routing.type` were `"fixed"` (the
`or_insert_with` default). -/
theorem routing_type_defaults_to_fixed (pools : List (String × π))
    (routing : List (String × String)) (h : lookupA "type" routing = none) :
    routing_from_config pools routing
      = routing_from_config pools (("type", "fixed") :: routing) := by
  unfold routing_from_config
  rw [h]
  have h2 : lookupA "type" (("type", "fixed") :: routing) = some "fixed" := by
    simp [lookupA]
  rw [h2]
  rfl

theorem routing_type_defaults_to_fixed_witness :
    routing_from_config [("default", (1 : Nat))] []
      = routing_from_config [("default", (1 : Nat))] [("type", "fixed")] :=
  routing_type_defaults_to_fixed [("default", 1)] [] rfl

/-- Position-wise characterization of the client fold's trace: the
event at position `j` (for `j < 2m`) is the batch read when `j` is
even and the route resolution when `j` is odd, both for batch
`k + j / 2`. -/
theorem foldTrace_get (m : Nat) : ∀ (k j : Nat),
    (foldTrace m k).get? j =
      if j < 2 * m then
        some (if j % 2 = 0 then .readBatch (k + j / 2)
              else .routeResolved (k + j / 2))
      else none := by
  induction m with
  | zero =>
    intro k j
    simp [foldTrace]
  | succ m ih =>
    intro k j
    rcases j with _ | (_ | j)
    · have h0 : (0 : Nat) < 2 * (m + 1) := by omega
      simp [foldTrace, h0]
    · have h1 : (1 : Nat) < 2 * (m + 1) := by omega
      simp [foldTrace, h1]
    · have hstep : (foldTrace (m + 1) k).get? (j + 2) = (foldTrace m (k + 1)).get? j := rfl
      rw [hstep, ih (k + 1) j]
      have h2 : (j + 2) % 2 = j % 2 := Nat.add_mod_right j 2
      have h3 : (j + 2) / 2 = j / 2 + 1 := Nat.add_div_right j (by decide)
      by_cases hj : j < 2 * m
      · have hj2 : j + 2 < 2 * (m + 1) := by omega
        rw [if_pos hj, if_pos hj2, h2, h3]
        have h4 : k + 1 + j / 2 = k + (j / 2 + 1) := by omega
        rw [h4]
      · have hj2 : ¬ (j + 2 < 2 * (m + 1)) := by omega
        rw [if_neg hj, if_neg hj2]

/-- C9: batches are processed strictly sequentially — whenever batch
`k + 1` is read off the client's protocol stream (at some trace
position `j`), the router future for batch `k` has already resolved at
a strictly earlier position. -/
theorem client_batches_strictly_sequential (n k j : Nat)
    (h : (foldTrace n 0).get? j = some (.readBatch (k + 1))) :
    ∃ i, i < j ∧ (foldTrace n 0).get? i = some (.routeResolved k) := by
  rw [foldTrace_get n 0 j] at h
  by_cases hj : j < 2 * n
  · rw [if_pos hj] at h
    by_cases he : j % 2 = 0
    · rw [if_pos he] at h
      injection h with h
      injection h with h
      have hfacts : j = 2 * k + 2 := by omega
      refine ⟨2 * k + 1, by omega, ?_⟩
      rw [foldTrace_get n 0 (2 * k + 1)]
      have h1 : 2 * k + 1 < 2 * n := by omega
      rw [if_pos h1]
      have h2 : ¬ ((2 * k + 1) % 2 = 0) := by omega
      rw [if_neg h2]
      have h3 : 0 + (2 * k + 1) / 2 = k := by omega
      rw [h3]
    · rw [if_neg he] at h
      injection h with h
      exact absurd h (by simp)
  · rw [if_neg hj] at h
    exact absurd h (by simp)

theorem client_batches_strictly_sequential_witness :
    ∃ i, i < 2 ∧ (foldTrace 3 0).get? i = some (ClientEvent.routeResolved 0) :=
  client_batches_strictly_sequential 3 0 2 rfl

/-- A slot that is Ready stays Ready under any queue event. -/
theorem mqStep_slot_ne_none (s : MQState Msg) (st : MQStep Msg) (j : Nat)
    (h : s.slot j ≠ none) : (mqStep s st).slot j ≠ none := by
  cases st with
  | fill i m =>
    simp only [mqStep]
    by_cases hij : j = i
    · subst hij
      simp [Function.update_same]
    · rw [Function.update_noteq hij]
      exact h
  | flush =>
    cases hslot : s.slot s.flushed with
    | some m =>
      have hone : mqStep s .flush =
          { flushed := s.flushed + 1, written := s.written ++ [m], slot := s.slot } := by
        unfold mqStep
        rw [hslot]
      rw [hone]
      exact h
    | none =>
      have hid : mqStep s .flush = s := by
        unfold mqStep
        rw [hslot]
      rw [hid]
      exact h

/-- A Ready slot stays Ready across a whole run. -/
theorem mqRun_slot_ne_none (steps : List (MQStep Msg)) :
    ∀ (s : MQState Msg) (j : Nat),
    s.slot j ≠ none → (mqRun steps s).slot j ≠ none := by
  induction steps with
  | nil => intro s j h; exact h
  | cons st rest ih =>
    intro s j h
    exact ih (mqStep s st) j (mqStep_slot_ne_none s st j h)

/-- A slot filled somewhere in the run is Ready at the end of it. -/
theorem mqRun_fill_filled (steps : List (MQStep Msg)) :
    ∀ (s : MQState Msg) (i : Nat) (m : Msg),
    MQStep.fill i m ∈ steps → (mqRun steps s).slot i ≠ none := by
  induction steps with
  | nil => intro s i m h; cases h
  | cons st rest ih =>
    intro s i m h
    rcases List.mem_cons.1 h with h1 | h1
    · subst h1
      show (mqRun rest (mqStep s (MQStep.fill i m))).slot i ≠ none
      apply mqRun_slot_ne_none
      simp [mqStep, Function.update_same]
    · exact ih (mqStep s st) i m h1

/-- The queue invariant is preserved by every well-formed event. -/
theorem mqStep_inv (n : Nat) (reply : Nat → Msg) (s : MQState Msg)
    (st : MQStep Msg) (hinv : MQInv n reply s) (hok : stepOk n reply st) :
    MQInv n reply (mqStep s st) := by
  obtain ⟨h1, h2, h3, h4⟩ := hinv
  cases st with
  | fill i m =>
    obtain ⟨hi, hm⟩ := hok
    subst hm
    refine ⟨h1, h2, fun j => ?_, fun j hj => ?_⟩
    · show Function.update s.slot i (some (reply i)) j = none ∨
        (j < n ∧ Function.update s.slot i (some (reply i)) j = some (reply j))
      by_cases hij : j = i
      · subst hij
        exact Or.inr ⟨hi, by rw [Function.update_same]⟩
      · rw [Function.update_noteq hij]
        exact h3 j
    · show Function.update s.slot i (some (reply i)) j = some (reply j)
      by_cases hij : j = i
      · subst hij
        rw [Function.update_same]
      · rw [Function.update_noteq hij]
        exact h4 j hj
  | flush =>
    cases hslot : s.slot s.flushed with
    | none =>
      have hid : mqStep s .flush = s := by
        unfold mqStep
        rw [hslot]
      rw [hid]
      exact ⟨h1, h2, h3, h4⟩
    | some m =>
      have hone : mqStep s .flush =
          { flushed := s.flushed + 1, written := s.written ++ [m], slot := s.slot } := by
        unfold mqStep
        rw [hslot]
      rw [hone]
      have h5 := h3 s.flushed
      rw [hslot] at h5
      rcases h5 with h5 | ⟨h6, h7⟩
      · simp at h5
      injection h7 with h7
      refine ⟨?_, ?_, h3, ?_⟩
      · show s.flushed + 1 ≤ n
        omega
      · show s.written ++ [m] = (List.range (s.flushed + 1)).map reply
        simp [List.range_succ, h2, h7]
      · intro j hj
        have hj1 : j < s.flushed + 1 := hj
        show s.slot j = some (reply j)
        have hj2 : j < s.flushed ∨ j = s.flushed := by omega
        rcases hj2 with hj2 | hj2
        · exact h4 j hj2
        · subst hj2
          rw [hslot, h7]

/-- The queue invariant is preserved by every run of well-formed events. -/
theorem mqRun_inv (n : Nat) (reply : Nat → Msg) (steps : List (MQStep Msg)) :
    ∀ s : MQState Msg, MQInv n reply s → (∀ st ∈ steps, stepOk n reply st) →
    MQInv n reply (mqRun steps s) := by
  induction steps with
  | nil => intro s hinv _; exact hinv
  | cons st rest ih =>
    intro s hinv hok
    exact ih (mqStep s st)
      (mqStep_inv n reply s st hinv (hok st (List.mem_cons_self st rest)))
      (fun st2 h2 => hok st2 (List.mem_cons_of_mem st h2))

/-- Draining an invariant-satisfying queue whose `n` slots are all
Ready puts the routed replies on the wire in request order. -/
theorem drainN_complete (n : Nat) (reply : Nat → Msg) (k : Nat) :
    ∀ s : MQState Msg, MQInv n reply s →
    (∀ j, j < n → s.slot j ≠ none) → n ≤ s.flushed + k →
    (drainN k s).written = (List.range n).map reply := by
  induction k with
  | zero =>
    intro s hinv _ hk
    obtain ⟨h1, h2, _, _⟩ := hinv
    have hf : s.flushed = n := by omega
    unfold drainN
    rw [h2, hf]
  | succ k ih =>
    intro s hinv hfill hk
    obtain ⟨h1, h2, h3, h4⟩ := hinv
    show (drainN k (mqStep s .flush)).written = _
    by_cases hf : s.flushed < n
    · have hne := hfill s.flushed hf
      cases hslot : s.slot s.flushed with
      | none => exact absurd hslot hne
      | some m =>
        have hone : mqStep s .flush =
            { flushed := s.flushed + 1, written := s.written ++ [m], slot := s.slot } := by
          unfold mqStep
          rw [hslot]
        refine ih (mqStep s .flush)
          (mqStep_inv n reply s .flush ⟨h1, h2, h3, h4⟩ trivial)
          (fun j hj => mqStep_slot_ne_none s .flush j (hfill j hj)) ?_
        rw [hone]
        show n ≤ s.flushed + 1 + k
        omega
    · have hnone : s.slot s.flushed = none := by
        rcases h3 s.flushed with h | ⟨h5, _⟩
        · exact h
        · omega
      have hid : mqStep s .flush = s := by
        unfold mqStep
        rw [hnone]
      rw [hid]
      exact ih s ⟨h1, h2, h3, h4⟩ hfill (by omega)

/-- C1: pipelining preservation.  For a client that sent `n` requests
whose routed replies are `reply 0, …, reply (n-1)`, any interleaving
of router completions (in any order) and ready-prefix drains, followed
by the terminal drain, writes to the client exactly
`reply 0, …, reply (n-1)` in request order: the reply at wire position
`i` answers request `i`. -/
theorem client_replies_in_request_order (n : Nat) (reply : Nat → Msg)
    (steps : List (MQStep Msg))
    (hok : ∀ st ∈ steps, stepOk n reply st)
    (hcov : ∀ i, i < n → MQStep.fill i (reply i) ∈ steps) :
    (drainN n (mqRun steps (mqInit Msg))).written
      = (List.range n).map reply := by
  have hinit : MQInv n reply (mqInit Msg) :=
    ⟨Nat.zero_le n, rfl, fun _ => Or.inl rfl, fun j hj => absurd hj (Nat.not_lt_zero j)⟩
  have hinv := mqRun_inv n reply steps (mqInit Msg) hinit hok
  have hfill : ∀ j, j < n → (mqRun steps (mqInit Msg)).slot j ≠ none :=
    fun j hj => mqRun_fill_filled steps (mqInit Msg) j (reply j) (hcov j hj)
  exact drainN_complete n reply n (mqRun steps (mqInit Msg)) hinv hfill (by omega)

theorem client_replies_in_request_order_witness :
    (drainN 2 (mqRun [MQStep.fill 1 101, MQStep.flush, MQStep.fill 0 100]
      (mqInit Nat))).written = [100, 101] :=
  client_replies_in_request_order 2 (fun i => 100 + i)
    [MQStep.fill 1 101, MQStep.flush, MQStep.fill 0 100]
    (by
      intro st hst
      simp only [List.mem_cons, List.not_mem_nil, or_false] at hst
      rcases hst with rfl | rfl | rfl
      · exact ⟨by omega, by norm_num⟩
      · trivial
      · exact ⟨by omega, by norm_num⟩)
    (by
      intro i hi
      interval_cases i
      · simp
      · simp)

end Synchrotron
